import Mathlib

/-!
Shallow embedding of the dsps photometry kernels (`dsps/photometry_kernels.py`)
and dust attenuation kernels (`dsps/dust/attenuation_kernels.py`).

Arrays of float64 are modelled as `List ℝ`; elementwise arithmetic becomes
`List.zipWith` / `List.map`; `jnp.interp` and `jnp.trapz` are modelled by the
recursive functions `interp` and `trapz` below.  The external cosmology
collaborator `_distance_modulus_to_z` (module `dsps.flat_wcdm`, an interface
per the spec) is passed in as an explicit function argument.
-/

namespace DSPS

noncomputable section

/-- Constant `AB0` from `photometry_kernels.py`: 3631 Jansky placed at 10 pc
in units of Lsun/Hz. -/
def AB0 : ℝ := 1.13492e-13

/-- Trapezoid-rule accumulator over a list of (x, y) sample points:
sum of `(x_{i+1} - x_i) * (y_i + y_{i+1}) / 2` over adjacent pairs. -/
def trapzP : List (ℝ × ℝ) → ℝ
  | [] => 0
  | [_] => 0
  | p :: q :: rest => (q.1 - p.1) * (p.2 + q.2) / 2 + trapzP (q :: rest)

/-- Model of `jnp.trapz(y, x)`: trapezoidal integration of samples `y`
against the grid `x`. -/
def trapz (ys xs : List ℝ) : ℝ := trapzP (xs.zip ys)

/-- Helper for `interp`: walk the (x, y) sample points looking for the
segment that brackets the query `x`; past the last point return `right`. -/
def interpPts (x right : ℝ) : ℝ × ℝ → List (ℝ × ℝ) → ℝ
  | p, [] => if x ≤ p.1 then p.2 else right
  | p, q :: rest =>
      if x ≤ q.1 then p.2 + (q.2 - p.2) * (x - p.1) / (q.1 - p.1)
      else interpPts x right q rest

/-- Model of `jnp.interp(x, xp, fp, left, right)`: piecewise-linear
interpolation of the samples `(xp, fp)` at the query point `x`, returning
`left` below the first sample and `right` above the last. -/
def interp (x : ℝ) (xp fp : List ℝ) (left right : ℝ) : ℝ :=
  match xp.zip fp with
  | [] => 0
  | p :: rest => if x < p.1 then left else interpPts x right p rest

/-- Embedding of `_rest_flux_ssp`: interpolate the rest-frame spectrum onto
the filter wavelength grid (zero outside the spectrum's domain), weight by
`trans/λ`, and integrate with the trapezoid rule. -/
def _rest_flux_ssp (wave_spec_rest lum_spec wave_filter trans_filter : List ℝ) : ℝ :=
  let lum_phot := wave_filter.map (fun w => interp w wave_spec_rest lum_spec 0 0)
  let integrand :=
    List.zipWith (· / ·) (List.zipWith (· * ·) trans_filter lum_phot) wave_filter
  trapz integrand wave_filter

/-- Embedding of `_obs_flux_ssp`: same as `_rest_flux_ssp` but the spectrum's
wavelength axis is stretched by `(1+z)` before interpolation. -/
def _obs_flux_ssp (wave_spec_rest lum_spec wave_filter trans_filter : List ℝ)
    (z : ℝ) : ℝ :=
  let lum_zshift_phot :=
    wave_filter.map
      (fun w => interp w (wave_spec_rest.map (fun wr => wr * (1 + z))) lum_spec 0 0)
  let integrand :=
    List.zipWith (· / ·) (List.zipWith (· * ·) trans_filter lum_zshift_phot) wave_filter
  trapz integrand wave_filter

/-- Embedding of `_flux_ab0_at_10pc`: trapezoidal integral of
`trans * AB0 / λ` over the filter grid. -/
def _flux_ab0_at_10pc (wave_filter trans_filter : List ℝ) : ℝ :=
  trapz (List.zipWith (fun t w => t * AB0 / w) trans_filter wave_filter) wave_filter

/-- Embedding of `_calc_rest_mag`. -/
def _calc_rest_mag (wave_spec_rest lum_spec wave_filter trans_filter : List ℝ) : ℝ :=
  let flux_source := _rest_flux_ssp wave_spec_rest lum_spec wave_filter trans_filter
  let flux_ab0 := _flux_ab0_at_10pc wave_filter trans_filter
  (-2.5) * Real.logb 10 (flux_source / flux_ab0)

/-- Embedding of `_calc_obs_mag_no_dimming`. -/
def _calc_obs_mag_no_dimming (wave_spec_rest lum_spec wave_filter trans_filter : List ℝ)
    (z : ℝ) : ℝ :=
  let flux_source := _obs_flux_ssp wave_spec_rest lum_spec wave_filter trans_filter z
  let flux_ab0 := _flux_ab0_at_10pc wave_filter trans_filter
  (-2.5) * Real.logb 10 (flux_source / flux_ab0)

/-- Embedding of `_cosmological_dimming`; the external collaborator
`_distance_modulus_to_z` (from `dsps.flat_wcdm`, out of scope per the spec)
is passed in as the function argument `dmodz`. -/
def _cosmological_dimming (dmodz : ℝ → ℝ → ℝ → ℝ → ℝ → ℝ → ℝ)
    (z Om0 Ode0 w0 wa h : ℝ) : ℝ :=
  dmodz z Om0 Ode0 w0 wa h - 2.5 * Real.logb 10 (1 + z)

/-- Embedding of `_calc_obs_mag`; `dmodz` is the external collaborator
`_distance_modulus_to_z`. -/
def _calc_obs_mag (dmodz : ℝ → ℝ → ℝ → ℝ → ℝ → ℝ → ℝ)
    (wave_spec_rest lum_spec wave_filter trans_filter : List ℝ)
    (z Om0 Ode0 w0 wa h : ℝ) : ℝ :=
  let flux_source := _obs_flux_ssp wave_spec_rest lum_spec wave_filter trans_filter z
  let flux_ab0 := _flux_ab0_at_10pc wave_filter trans_filter
  let mag_no_dimming := -2.5 * Real.logb 10 (flux_source / flux_ab0)
  let dimming := _cosmological_dimming dmodz z Om0 Ode0 w0 wa h
  mag_no_dimming + dimming

/-- Embedding of `_calc_obs_mag_no_dimming_vmap`:
`jvmap(jvmap(jvmap(f, in_axes=_b), in_axes=_a), in_axes=_a)` where
`_a = [None, 0, None, None, None]` maps over the luminosity argument and
`_b = [None, None, None, None, 0]` maps over the redshift argument; so the
outer map runs over the metallicity axis of `lum_spec`, the middle map over
its age axis, and the inner map over the redshift array. -/
def _calc_obs_mag_no_dimming_vmap (wave_spec_rest : List ℝ)
    (lum_spec : List (List (List ℝ))) (wave_filter trans_filter : List ℝ)
    (z : List ℝ) : List (List (List ℝ)) :=
  lum_spec.map fun lum_met =>
    lum_met.map fun lum_age =>
      z.map fun zk =>
        _calc_obs_mag_no_dimming wave_spec_rest lum_age wave_filter trans_filter zk

/-- Modelled from the spec (refinement reference, not source code): the
triple-nested scalar loop "in the axis order metallicity, age, galaxy",
producing the array whose (i, j, k) entry is the scalar call on the
(i, j)-th spectrum and the k-th redshift. -/
def obsMagNoDimmingTripleLoop (wave_spec_rest : List ℝ)
    (lum_spec : List (List (List ℝ))) (wave_filter trans_filter : List ℝ)
    (z : List ℝ) : List (List (List ℝ)) :=
  (List.range lum_spec.length).map fun i =>
    (List.range (lum_spec.getD i []).length).map fun j =>
      (List.range z.length).map fun k =>
        _calc_obs_mag_no_dimming wave_spec_rest ((lum_spec.getD i []).getD j [])
          wave_filter trans_filter (z.getD k 0)

/-- Constant `RV_C00 = 4.05` from `attenuation_kernels.py`. -/
def RV_C00 : ℝ := 4.05

/-- Embedding of `calzetti00_k_lambda`: the Calzetti 2000 reddening curve,
piecewise at 0.63 microns. -/
def calzetti00_k_lambda (x rv : ℝ) : ℝ :=
  let axEbv1 :=
    2.659 * (-2.156 + 1.509 * 1 / x - 0.198 * 1 / x ^ 2 + 0.011 * 1 / x ^ 3) + rv
  let axEbv2 := 2.659 * (-1.857 + 1.040 * 1 / x) + rv
  if x < 0.63 then axEbv1 else axEbv2

/-- Embedding of `leitherer02_k_lambda` (the `rv` argument is unused in the
source as well). -/
def leitherer02_k_lambda (x rv : ℝ) : ℝ :=
  5.472 + (0.671 * 1 / x - 9.218 * 1e-3 / x ^ 2 + 2.620 * 1e-3 / x ^ 3)

/-- Embedding of `_l02_below_c00_above`: `jnp.where(x > xc, c00, l02)` with
`Rv = RV_C00` in both branches; the source default for `xc` is 0.15. -/
def _l02_below_c00_above (x xc : ℝ) : ℝ :=
  let axEbv_c00 := calzetti00_k_lambda x RV_C00
  let axEbv_l02 := leitherer02_k_lambda x RV_C00
  if x > xc then axEbv_c00 else axEbv_l02

/-- Embedding of `drude_bump`. -/
def drude_bump (x x0 gamma ampl : ℝ) : ℝ :=
  ampl * (x ^ 2 * gamma ^ 2 / ((x ^ 2 - x0 ^ 2) ^ 2 + x ^ 2 * gamma ^ 2))

/-- Embedding of `power_law_vband_norm`: `(x / 0.55) ** slope` (real power). -/
def power_law_vband_norm (x slope : ℝ) : ℝ :=
  (x / 0.55) ^ slope

/-- Embedding of `noll09_k_lambda`: blend, then add the UV bump, then
multiply by the power law, then clip at zero. -/
def noll09_k_lambda (x x0 gamma ampl slope : ℝ) : ℝ :=
  let axEbv := _l02_below_c00_above x 0.15
  let axEbv2 := axEbv + drude_bump x x0 gamma ampl
  let axEbv3 := axEbv2 * power_law_vband_norm x slope
  if axEbv3 < 0 then 0 else axEbv3

/-- Embedding of `sbl18_k_lambda`: blend, then multiply by the power law,
then add the UV bump, then clip at zero. -/
def sbl18_k_lambda (x x0 gamma ampl slope : ℝ) : ℝ :=
  let axEbv := _l02_below_c00_above x 0.15
  let axEbv2 := axEbv * power_law_vband_norm x slope
  let axEbv3 := axEbv2 + drude_bump x x0 gamma ampl
  if axEbv3 < 0 then 0 else axEbv3

/-- Embedding of `_attenuation_curve`: `jnp.where(att < 0, 0, att)` applied
to `av * axEbv / rv`. -/
def _attenuation_curve (axEbv rv av : ℝ) : ℝ :=
  let attenuation := av * axEbv / rv
  if attenuation < 0 then 0 else attenuation

/-- Embedding of `_flux_ratio`; the source default for `frac_unobscured`
is 0.0. -/
def _flux_ratio (axEbv rv av frac_unobscured : ℝ) : ℝ :=
  let frac_att_obs := (10 : ℝ) ^ (-0.4 * _attenuation_curve axEbv rv av)
  frac_unobscured + (1 - frac_unobscured) * frac_att_obs

/-! ### Helper lemmas -/

theorem map_range_getD {α β : Type _} (l : List α) (d : α) (f : α → β) :
    (List.range l.length).map (fun i => f (l.getD i d)) = l.map f := by
  induction l with
  | nil => simp
  | cons a t ih =>
    simp only [List.length_cons, List.range_succ_eq_map, List.map_cons,
      List.getD_cons_zero, List.map_map]
    refine congrArg (List.cons (f a)) ?_
    rw [← ih]
    refine List.map_congr_left fun i _ => ?_
    simp [Function.comp, List.getD_cons_succ]

theorem trapzP_map_smul (c : ℝ) (l : List (ℝ × ℝ)) :
    trapzP (l.map (fun p => (p.1, c * p.2))) = c * trapzP l := by
  induction l with
  | nil => simp [trapzP]
  | cons p t ih =>
    cases t with
    | nil => simp [trapzP]
    | cons q t' =>
      simp only [List.map_cons] at ih ⊢
      simp only [trapzP]
      rw [ih]
      ring

theorem trapz_smul (c : ℝ) (ys xs : List ℝ) :
    trapz (ys.map (fun y => c * y)) xs = c * trapz ys xs := by
  unfold trapz
  rw [List.zip_map_right]
  have hpm : Prod.map (@id ℝ) (fun y => c * y) = fun p => (p.1, c * p.2) := by
    funext p
    cases p
    simp [Prod.map]
  rw [hpm, trapzP_map_smul]

theorem AB0_pos : 0 < AB0 := by
  norm_num [AB0]

theorem trapzP_nonneg (l : List (ℝ × ℝ))
    (hx : List.Chain' (fun p q => p.1 ≤ q.1) l)
    (hy : ∀ p ∈ l, 0 ≤ p.2) : 0 ≤ trapzP l := by
  induction l with
  | nil => simp [trapzP]
  | cons p t ih =>
    cases t with
    | nil => simp [trapzP]
    | cons q t' =>
      simp only [trapzP]
      have hpq : p.1 ≤ q.1 := (List.chain'_cons.mp hx).1
      have hp : 0 ≤ p.2 := hy p (List.mem_cons_self _ _)
      have hq : 0 ≤ q.2 := hy q (List.mem_cons_of_mem _ (List.mem_cons_self _ _))
      have hrec : 0 ≤ trapzP (q :: t') :=
        ih (List.chain'_cons.mp hx).2 (fun r hr => hy r (List.mem_cons_of_mem _ hr))
      have hterm : 0 ≤ (q.1 - p.1) * (p.2 + q.2) / 2 := by
        apply div_nonneg _ (by norm_num)
        exact mul_nonneg (by linarith) (by linarith)
      linarith

theorem trapzP_pos (l : List (ℝ × ℝ))
    (hx : List.Chain' (fun p q => p.1 < q.1) l)
    (hy : ∀ p ∈ l, 0 ≤ p.2)
    (hex : ∃ p ∈ l, 0 < p.2)
    (hlen : 2 ≤ l.length) : 0 < trapzP l := by
  induction l with
  | nil => simp at hlen
  | cons p t ih =>
    cases t with
    | nil => simp at hlen
    | cons q t' =>
      simp only [trapzP]
      have hpq : p.1 < q.1 := (List.chain'_cons.mp hx).1
      have hp : 0 ≤ p.2 := hy p (List.mem_cons_self _ _)
      have hq : 0 ≤ q.2 := hy q (List.mem_cons_of_mem _ (List.mem_cons_self _ _))
      have hx' := (List.chain'_cons.mp hx).2
      have hy' : ∀ r ∈ q :: t', 0 ≤ r.2 := fun r hr => hy r (List.mem_cons_of_mem _ hr)
      have hrest_nonneg : 0 ≤ trapzP (q :: t') :=
        trapzP_nonneg _ (hx'.imp fun a b hab => le_of_lt hab) hy'
      obtain ⟨w, hw, hwpos⟩ := hex
      rcases List.mem_cons.mp hw with rfl | hw'
      · have hterm : 0 < (q.1 - w.1) * (w.2 + q.2) / 2 := by
          apply div_pos _ (by norm_num)
          exact mul_pos (by linarith) (by linarith)
        linarith
      rcases List.mem_cons.mp hw' with rfl | hw''
      · have hterm : 0 < (w.1 - p.1) * (p.2 + w.2) / 2 := by
          apply div_pos _ (by norm_num)
          exact mul_pos (by linarith) (by linarith)
        linarith
      · have h2' : 2 ≤ (q :: t').length := by
          cases t' with
          | nil => simp at hw''
          | cons r t'' => simp [List.length_cons]
        have hrest_pos : 0 < trapzP (q :: t') :=
          ih hx' hy' ⟨w, List.mem_cons_of_mem _ hw'', hwpos⟩ h2'
        have hterm : 0 ≤ (q.1 - p.1) * (p.2 + q.2) / 2 := by
          apply div_nonneg _ (by norm_num)
          exact mul_nonneg (by linarith) (by linarith)
        linarith

/-! ### Theorems about the claims -/

/-- C1 counterexample: at `x = 0.15` exactly, the blended base curve returns
the Leitherer02 value, which differs from the Calzetti00 value with
`Rv = 4.05`; so the claim that the blend equals Calzetti00 for every
`x ≥ 0.15` (including `x = 0.15` exactly) fails at `x = 0.15`. -/
theorem l02_c00_blend_at_boundary_ne_calzetti :
    _l02_below_c00_above 0.15 0.15 ≠ calzetti00_k_lambda 0.15 RV_C00 := by
  simp only [_l02_below_c00_above, calzetti00_k_lambda, leitherer02_k_lambda, RV_C00]
  norm_num

/-- C1 (amended): the blended dust curve equals the Leitherer02 curve for
`x ≤ 0.15` (including the boundary) and the Calzetti00 curve with
`Rv = 4.05` for `x > 0.15`. -/
theorem l02_c00_blend_piecewise (x : ℝ) :
    (x ≤ 0.15 → _l02_below_c00_above x 0.15 = leitherer02_k_lambda x RV_C00) ∧
    (0.15 < x → _l02_below_c00_above x 0.15 = calzetti00_k_lambda x RV_C00) := by
  constructor
  · intro hx
    simp only [_l02_below_c00_above]
    rw [if_neg (not_lt.mpr hx)]
  · intro hx
    simp only [_l02_below_c00_above]
    rw [if_pos hx]

/-- C1 witness: the amended piecewise description evaluated at the concrete
wavelengths 0.1 (below the boundary) and 0.2 (above it). -/
theorem l02_c00_blend_piecewise_witness :
    _l02_below_c00_above 0.1 0.15 = leitherer02_k_lambda 0.1 RV_C00 ∧
    _l02_below_c00_above 0.2 0.15 = calzetti00_k_lambda 0.2 RV_C00 :=
  ⟨(l02_c00_blend_piecewise 0.1).1 (by norm_num),
   (l02_c00_blend_piecewise 0.2).2 (by norm_num)⟩

/-- C3: the observed magnitude with dimming equals the observed magnitude
without dimming plus `distance_modulus(z, cosmology) - 2.5*log10(1+z)`,
for every spectrum, filter, redshift, cosmology, and external
distance-modulus collaborator `dmodz`. -/
theorem obs_mag_eq_no_dimming_add_dimming
    (dmodz : ℝ → ℝ → ℝ → ℝ → ℝ → ℝ → ℝ)
    (wave_spec_rest lum_spec wave_filter trans_filter : List ℝ)
    (z Om0 Ode0 w0 wa h : ℝ) :
    _calc_obs_mag dmodz wave_spec_rest lum_spec wave_filter trans_filter
        z Om0 Ode0 w0 wa h =
      _calc_obs_mag_no_dimming wave_spec_rest lum_spec wave_filter trans_filter z +
        (dmodz z Om0 Ode0 w0 wa h - 2.5 * Real.logb 10 (1 + z)) := rfl

/-- C4: the observed flux is exactly the rest-frame flux computation applied
to the spectrum with its wavelength axis scaled by `(1+z)` (luminosity values
unrescaled); in particular at `z = 0` the two fluxes coincide, and hence
`_calc_obs_mag_no_dimming` at `z = 0` coincides with `_calc_rest_mag`. -/
theorem obs_flux_eq_rest_flux_shifted
    (wave_spec_rest lum_spec wave_filter trans_filter : List ℝ) (z : ℝ) :
    _obs_flux_ssp wave_spec_rest lum_spec wave_filter trans_filter z =
      _rest_flux_ssp (wave_spec_rest.map (fun wr => wr * (1 + z))) lum_spec
        wave_filter trans_filter ∧
    _obs_flux_ssp wave_spec_rest lum_spec wave_filter trans_filter 0 =
      _rest_flux_ssp wave_spec_rest lum_spec wave_filter trans_filter ∧
    _calc_obs_mag_no_dimming wave_spec_rest lum_spec wave_filter trans_filter 0 =
      _calc_rest_mag wave_spec_rest lum_spec wave_filter trans_filter := by
  have hmap : wave_spec_rest.map (fun wr => wr * (1 + (0:ℝ))) = wave_spec_rest := by
    simp
  have hflux : _obs_flux_ssp wave_spec_rest lum_spec wave_filter trans_filter 0 =
      _rest_flux_ssp wave_spec_rest lum_spec wave_filter trans_filter := by
    unfold _obs_flux_ssp _rest_flux_ssp
    rw [hmap]
  refine ⟨rfl, hflux, ?_⟩
  unfold _calc_obs_mag_no_dimming _calc_rest_mag
  rw [hflux]

/-- C5: with `slope = 0` the V-band-normalized power law is the constant 1,
so the Noll09 and Salim18 curves agree for all `x`, `x0`, `gamma`, `ampl`. -/
theorem noll09_eq_sbl18_of_slope_zero (x x0 gamma ampl : ℝ) :
    noll09_k_lambda x x0 gamma ampl 0 = sbl18_k_lambda x x0 gamma ampl 0 := by
  simp only [noll09_k_lambda, sbl18_k_lambda, power_law_vband_norm,
    Real.rpow_zero, mul_one]

/-- C6 counterexample: the filter curve with wavelengths `[1, 2]` (strictly
increasing and positive) and transmissions `[0, 0]` (all in `[0, ∞)`) is a
valid FilterCurve in the sense of the claim, yet its AB zero-point flux is
exactly 0, not strictly positive. -/
theorem flux_ab0_at_10pc_zero_transmission :
    List.Chain' (· < ·) [(1 : ℝ), 2] ∧ (∀ w ∈ [(1 : ℝ), 2], 0 < w) ∧
    (∀ t ∈ [(0 : ℝ), 0], 0 ≤ t) ∧ _flux_ab0_at_10pc [1, 2] [0, 0] = 0 := by
  refine ⟨?_, ?_, ?_, ?_⟩
  · simp only [List.chain'_cons, List.chain'_singleton, and_true]
    norm_num
  · intro w hw
    rcases List.mem_cons.mp hw with rfl | hw'
    · norm_num
    rcases List.mem_cons.mp hw' with rfl | hw''
    · norm_num
    · simp at hw''
  · intro t ht
    rcases List.mem_cons.mp ht with rfl | ht'
    · norm_num
    rcases List.mem_cons.mp ht' with rfl | ht''
    · norm_num
    · simp at ht''
  · norm_num [_flux_ab0_at_10pc, trapz, trapzP]

/-- C6 (amended): for every filter curve with at least two samples, strictly
increasing positive wavelengths, transmissions in `[0, ∞)`, and at least one
strictly positive transmission value, the AB zero-point flux is strictly
positive.  (The all-zero transmission curve, allowed by the claim as stated,
gives flux exactly 0.) -/
theorem flux_ab0_at_10pc_pos (wave_filter trans_filter : List ℝ)
    (hlen : trans_filter.length = wave_filter.length)
    (h2 : 2 ≤ wave_filter.length)
    (hmono : List.Chain' (· < ·) wave_filter)
    (hwpos : ∀ w ∈ wave_filter, 0 < w)
    (htnn : ∀ t ∈ trans_filter, 0 ≤ t)
    (htpos : ∃ i, ∃ hi : i < trans_filter.length, 0 < trans_filter.get ⟨i, hi⟩) :
    0 < _flux_ab0_at_10pc wave_filter trans_filter := by
  unfold _flux_ab0_at_10pc trapz
  have hyslen : (List.zipWith (fun t w => t * AB0 / w) trans_filter wave_filter).length
      = wave_filter.length := by
    rw [List.length_zipWith, hlen, min_self]
  have hzlen : (wave_filter.zip
      (List.zipWith (fun t w => t * AB0 / w) trans_filter wave_filter)).length
      = wave_filter.length := by
    rw [List.length_zip, hyslen, min_self]
  apply trapzP_pos
  · rw [List.chain'_iff_get] at hmono ⊢
    intro i hi
    rw [hzlen] at hi
    simp only [List.get_eq_getElem, List.getElem_zip]
    exact hmono i (by omega)
  · intro p hp
    obtain ⟨n, hn, rfl⟩ := List.mem_iff_getElem.mp hp
    simp only [List.getElem_zip, List.getElem_zipWith]
    apply div_nonneg
    · exact mul_nonneg (htnn _ (List.getElem_mem _)) (le_of_lt AB0_pos)
    · exact le_of_lt (hwpos _ (List.getElem_mem _))
  · obtain ⟨i, hi, hipos⟩ := htpos
    have hiz : i < (wave_filter.zip
        (List.zipWith (fun t w => t * AB0 / w) trans_filter wave_filter)).length := by
      rw [hzlen, ← hlen]
      exact hi
    refine ⟨_, List.get_mem _ i hiz, ?_⟩
    simp only [List.get_eq_getElem, List.getElem_zip, List.getElem_zipWith]
    apply div_pos
    · apply mul_pos _ AB0_pos
      simpa only [List.get_eq_getElem] using hipos
    · exact hwpos _ (List.getElem_mem _)
  · rw [hzlen]
    exact h2

/-- C6 witness: the amended positivity applied to the concrete filter curve
with wavelengths `[1, 2]` and transmissions `[1, 1]`. -/
theorem flux_ab0_at_10pc_pos_witness :
    0 < _flux_ab0_at_10pc [1, 2] [1, 1] := by
  apply flux_ab0_at_10pc_pos
  · rfl
  · norm_num
  · simp only [List.chain'_cons, List.chain'_singleton, and_true]
    norm_num
  · intro w hw
    rcases List.mem_cons.mp hw with rfl | hw'
    · norm_num
    rcases List.mem_cons.mp hw' with rfl | hw''
    · norm_num
    · simp at hw''
  · intro t ht
    rcases List.mem_cons.mp ht with rfl | ht'
    · norm_num
    rcases List.mem_cons.mp ht' with rfl | ht''
    · norm_num
    · simp at ht''
  · exact ⟨0, by norm_num, by norm_num⟩

/-- C7: the attenuation curve is clipped at 0 from below, so it never
returns a negative value, for inputs of any sign. -/
theorem attenuation_curve_nonneg (axEbv rv av : ℝ) :
    0 ≤ _attenuation_curve axEbv rv av := by
  simp only [_attenuation_curve]
  split_ifs with h
  · exact le_refl 0
  · exact le_of_not_lt h

/-- C2: the batched observed-magnitude-without-dimming evaluation equals the
triple-nested scalar loop in the axis order metallicity, age, galaxy: the
(i, j, k) entry is the scalar call on the (i, j)-th spectrum and the k-th
redshift. -/
theorem obs_mag_no_dimming_vmap_eq_triple_loop (wave_spec_rest : List ℝ)
    (lum_spec : List (List (List ℝ))) (wave_filter trans_filter : List ℝ)
    (z : List ℝ) :
    _calc_obs_mag_no_dimming_vmap wave_spec_rest lum_spec wave_filter trans_filter z =
      obsMagNoDimmingTripleLoop wave_spec_rest lum_spec wave_filter trans_filter z := by
  unfold _calc_obs_mag_no_dimming_vmap obsMagNoDimmingTripleLoop
  refine Eq.trans ?_ (map_range_getD lum_spec []
    (fun lum_met => (List.range lum_met.length).map fun j =>
      (List.range z.length).map fun k =>
        _calc_obs_mag_no_dimming wave_spec_rest (lum_met.getD j [])
          wave_filter trans_filter (z.getD k 0))).symm
  refine List.map_congr_left fun lum_met _ => ?_
  refine Eq.trans ?_ (map_range_getD lum_met []
    (fun lum_age => (List.range z.length).map fun k =>
      _calc_obs_mag_no_dimming wave_spec_rest lum_age
        wave_filter trans_filter (z.getD k 0))).symm
  refine List.map_congr_left fun lum_age _ => ?_
  exact (map_range_getD z 0 _).symm

/-- C10: `_calc_rest_mag` is invariant under rescaling the filter
transmission curve by any positive constant `c`, since both the source flux
and the AB zero-point flux are linear in the transmission. -/
theorem rest_mag_trans_scale_invariant
    (wave_spec_rest lum_spec wave_filter trans_filter : List ℝ)
    (c : ℝ) (hc : 0 < c) :
    _calc_rest_mag wave_spec_rest lum_spec wave_filter
        (trans_filter.map (fun t => c * t)) =
      _calc_rest_mag wave_spec_rest lum_spec wave_filter trans_filter := by
  have hflux : _rest_flux_ssp wave_spec_rest lum_spec wave_filter
      (trans_filter.map (fun t => c * t)) =
      c * _rest_flux_ssp wave_spec_rest lum_spec wave_filter trans_filter := by
    simp only [_rest_flux_ssp]
    rw [List.zipWith_map_left]
    have h1 : (fun (a b : ℝ) => c * a * b) = fun a b => c * (a * b) := by
      funext a b
      ring
    rw [h1, ← List.map_zipWith (fun y => c * y) (· * ·)]
    have h2 : List.zipWith (· / ·)
        ((List.zipWith (· * ·) trans_filter
          (wave_filter.map fun w => interp w wave_spec_rest lum_spec 0 0)).map
            (fun y => c * y)) wave_filter =
        (List.zipWith (· / ·)
          (List.zipWith (· * ·) trans_filter
            (wave_filter.map fun w => interp w wave_spec_rest lum_spec 0 0))
          wave_filter).map (fun y => c * y) := by
      rw [List.zipWith_map_left]
      have h3 : (fun (a b : ℝ) => c * a / b) = fun a b => c * (a / b) := by
        funext a b
        ring
      rw [h3, ← List.map_zipWith (fun y => c * y) (· / ·)]
    rw [h2, trapz_smul]
  have hab0 : _flux_ab0_at_10pc wave_filter (trans_filter.map (fun t => c * t)) =
      c * _flux_ab0_at_10pc wave_filter trans_filter := by
    simp only [_flux_ab0_at_10pc]
    rw [List.zipWith_map_left]
    have h1 : (fun (a b : ℝ) => c * a * AB0 / b) = fun a b => c * (a * AB0 / b) := by
      funext a b
      ring
    rw [h1, ← List.map_zipWith (fun y => c * y) (fun t w => t * AB0 / w),
      trapz_smul]
  simp only [_calc_rest_mag]
  rw [hflux, hab0, mul_div_mul_left _ _ (ne_of_gt hc)]

/-- C10 witness: the invariance applied to a concrete spectrum, filter and
the scale factor 2. -/
theorem rest_mag_trans_scale_invariant_witness :
    _calc_rest_mag [1, 2] [1, 1] [1, 2] ([1, 1].map (fun t => 2 * t)) =
      _calc_rest_mag [1, 2] [1, 1] [1, 2] [1, 1] :=
  rest_mag_trans_scale_invariant [1, 2] [1, 1] [1, 2] [1, 1] 2 (by norm_num)

/-- C8: with zero reddening (`axEbv = 0`) and the default
`frac_unobscured = 0`, the flux ratio is exactly 1 for all `rv`, `av`. -/
theorem flux_ratio_zero_axEbv (rv av : ℝ) :
    _flux_ratio 0 rv av 0 = 1 := by
  simp [_flux_ratio, _attenuation_curve, Real.rpow_zero]

end

end DSPS
